import Mathlib

/-!
Shallow embedding of the Kaleidoscope-style lexer and parser front end
(`src/lib.rs`): the `Token` and `CharState` enums, the `Lexer` scanning
state machine (`get_char`, `get_token`, `update_token`), the AST node
model, `ParseError`, and the `ASTParser` with `parse_number_expr`.

The byte source (`R: Read`) is modelled as a finite list of read
outcomes: each `read_exact` of one byte consumes the next entry, which
is either a successfully read character (`ReadResult.ok c`, the byte
widened to a char by direct cast as in the source) or a non-EOF I/O
error (`ReadResult.ioError`); an exhausted list yields the
`UnexpectedEof` outcome. Rust's `f64` value is modelled by `Rat`
carrying the exact decimal value (rounding to the nearest binary64
is abstracted away; no claim compares two distinct decimal values).
-/

/-- The `Token` enum of the source (line 1-11). -/
inductive Token where
  | None
  | Eof
  | Def
  | Extern
  | Identifier
  | Number
  | Char (c : Char)
  | Comment
deriving DecidableEq

/-- The `CharState` enum of the source (line 13-18); the typo
`NotInitailized` is the source's own spelling. -/
inductive CharState where
  | NotInitailized
  | Char (c : Char)
  | Eof
deriving DecidableEq

/-- One outcome of a `read_exact` of a single byte from the underlying
`Read` source: a character (the byte cast to `char`), or an I/O error
whose kind is not `UnexpectedEof`. End of stream is represented by
exhaustion of the outcome list. -/
inductive ReadResult where
  | ok (c : Char)
  | ioError
deriving DecidableEq

/-- Rust `char::is_alphabetic` restricted to the single-byte characters
the byte-to-char cast can produce: ASCII letters (U+0041-U+005A,
U+0061-U+007A) plus the Latin-1 letters U+00AA, U+00B5, U+00BA,
U+00C0-U+00D6, U+00D8-U+00F6, U+00F8-U+00FF. -/
def is_alphabetic (c : Char) : Bool :=
  (0x41 ≤ c.toNat && c.toNat ≤ 0x5A) || (0x61 ≤ c.toNat && c.toNat ≤ 0x7A) ||
    c.toNat == 0xAA || c.toNat == 0xB5 || c.toNat == 0xBA ||
    (0xC0 ≤ c.toNat && c.toNat ≤ 0xD6) ||
    (0xD8 ≤ c.toNat && c.toNat ≤ 0xF6) ||
    (0xF8 ≤ c.toNat && c.toNat ≤ 0xFF)

/-- Rust `char::is_numeric` restricted to single-byte characters:
ASCII digits (U+0030-U+0039) plus the Latin-1 numeric characters
U+00B2, U+00B3, U+00B9, U+00BC, U+00BD, U+00BE. -/
def is_numeric (c : Char) : Bool :=
  (0x30 ≤ c.toNat && c.toNat ≤ 0x39) ||
    c.toNat == 0xB2 || c.toNat == 0xB3 || c.toNat == 0xB9 ||
    c.toNat == 0xBC || c.toNat == 0xBD || c.toNat == 0xBE

/-- Rust `char::is_alphanumeric` = alphabetic or numeric. -/
def is_alphanumeric (c : Char) : Bool :=
  is_alphabetic c || is_numeric c

/-- Value of a list of ASCII digit characters read in base 10. -/
def digitsToNat (l : List Char) : Nat :=
  l.foldl (fun a c => 10 * a + (c.toNat - 48)) 0

/-- Models Rust `str::parse::<f64>()` on the digit-and-dot buffers the
lexer produces: parsing succeeds exactly when the buffer contains at
most one `.`, every other character is an ASCII digit, and at least one
digit is present; the result is the exact decimal value as a rational
(binary64 rounding and overflow-to-infinity are abstracted away).
Buffers with two or more dots, a bare `.`, or non-ASCII numeric
characters (e.g. `²`) fail, as they do under Rust's `f64` grammar. -/
def parseF64 (s : List Char) : Option Rat :=
  let ip := s.takeWhile (fun c => c != '.')
  match s.drop ip.length with
  | [] =>
      if !ip.isEmpty && ip.all Char.isDigit then
        some ((digitsToNat ip : Rat))
      else none
  | _ :: fp =>
      if ip.all Char.isDigit && fp.all Char.isDigit &&
          !(ip.isEmpty && fp.isEmpty) then
        some ((digitsToNat ip : Rat) + (digitsToNat fp : Rat) / (10 : Rat) ^ fp.length)
      else none

/-- The `Lexer<R>` struct (line 36-43), with the `Read` source modelled
as the list of outcomes of its successive one-byte reads. -/
structure Lexer where
  source : List ReadResult
  last_char : CharState
  identifier_str : List Char
  num_val : Option Rat
  cur_tok : Token
deriving DecidableEq

/-- `Lexer::new` (line 46-54): fresh lexer over a source. (The
`io::Result` wrapper is always `Ok` in the source.) -/
def Lexer.new (source : List ReadResult) : Lexer :=
  { source := source
    last_char := CharState.NotInitailized
    identifier_str := []
    num_val := none
    cur_tok := Token.None }

/-- The test helper `create_lexer` (line 420-428): a lexer over an
in-memory string, every byte of which reads successfully. -/
def create_lexer (s : String) : Lexer :=
  Lexer.new (s.toList.map ReadResult.ok)

/-- `Lexer::get_char` (line 56-69): one `read_exact` of one byte.
On success the cursor becomes `Char c`; on `UnexpectedEof` it becomes
`Eof`; on any other I/O error the source merely logs to stderr and
returns, leaving `last_char` unchanged (the error is swallowed). -/
def Lexer.get_char (l : Lexer) : Lexer :=
  match l.source with
  | [] => { l with last_char := CharState.Eof }
  | ReadResult.ok c :: rest =>
      { l with source := rest, last_char := CharState.Char c }
  | ReadResult.ioError :: rest =>
      { l with source := rest }

/-- The cursor after one `get_char` step given the next read outcome:
a swallowed I/O error leaves the previous cursor value in place. -/
def readStep (r : ReadResult) (st : CharState) : CharState :=
  match r with
  | ReadResult.ok c => CharState.Char c
  | ReadResult.ioError => st

/-- The skip-whitespace loop of `get_token` (line 73-76): while
`last_char` is `Char ' '` or `NotInitailized`, call `get_char`.
Returns the remaining source and the cursor at loop exit. -/
def skipSpacesAux (st : CharState) : List ReadResult → List ReadResult × CharState
  | [] =>
      if st = CharState.Char ' ' ∨ st = CharState.NotInitailized then
        ([], CharState.Eof)
      else ([], st)
  | r :: rest =>
      if st = CharState.Char ' ' ∨ st = CharState.NotInitailized then
        skipSpacesAux (readStep r st) rest
      else (r :: rest, st)

/-- The identifier accumulation loop of `get_token` (line 86-94):
repeatedly `get_char`; while the cursor holds an alphanumeric
character, push it onto the buffer. Returns the remaining source, the
cursor at loop exit (the first non-alphanumeric read, kept as
lookahead) and the final buffer. -/
def identLoopAux (st : CharState) (acc : List Char) :
    List ReadResult → List ReadResult × CharState × List Char
  | [] => ([], CharState.Eof, acc)
  | r :: rest =>
      match readStep r st with
      | CharState.Char c =>
          if is_alphanumeric c then identLoopAux (CharState.Char c) (acc ++ [c]) rest
          else (rest, CharState.Char c, acc)
      | st' => (rest, st', acc)

/-- The number accumulation loop of `get_token` (line 104-119): while
the cursor holds a character, push it, `get_char`, and continue only if
the new cursor holds a digit or `.`. Returns the remaining source, the
cursor at loop exit and the accumulated `number_str`. -/
def numLoopAux (st : CharState) (acc : List Char) :
    List ReadResult → List ReadResult × CharState × List Char
  | [] =>
      match st with
      | CharState.Char num_c => ([], CharState.Eof, acc ++ [num_c])
      | _ => ([], st, acc)
  | r :: rest =>
      match st with
      | CharState.Char num_c =>
          match readStep r (CharState.Char num_c) with
          | CharState.Char next_c =>
              if is_numeric next_c || next_c == '.' then
                numLoopAux (CharState.Char next_c) (acc ++ [num_c]) rest
              else (rest, CharState.Char next_c, acc ++ [num_c])
          | st' => (rest, st', acc ++ [num_c])
      | _ => (r :: rest, st, acc)

/-- Keyword classification of the completed identifier buffer
(line 96-100). -/
def classifyIdent (buf : List Char) : Token :=
  if buf = "def".toList then Token.Def
  else if buf = "extern".toList then Token.Extern
  else Token.Identifier

/-- `Lexer::get_token` (line 71-130): skip spaces (priming the cursor
if `NotInitailized`), then dispatch on the cursor: `Eof` yields the
end-of-input token; an alphabetic character starts the identifier
loop and keyword classification; a digit or `.` starts the number loop
whose buffer is parsed into `num_val`; any other character is consumed
and returned as a single-character token. The `NotInitailized` arm is
`unreachable!()` in the source; it is modelled by `Token.None` and
proved unreachable below. -/
def Lexer.get_token (l : Lexer) : Lexer × Token :=
  match skipSpacesAux l.last_char l.source with
  | (src1, st1) =>
      match st1 with
      | CharState.Eof =>
          ({ l with source := src1, last_char := CharState.Eof }, Token.Eof)
      | CharState.Char c =>
          if is_alphabetic c then
            match identLoopAux (CharState.Char c) [c] src1 with
            | (src2, st2, buf) =>
                ({ l with source := src2, last_char := st2, identifier_str := buf },
                  classifyIdent buf)
          else if is_numeric c || c == '.' then
            match numLoopAux (CharState.Char c) [] src1 with
            | (src2, st2, buf) =>
                ({ l with source := src2, last_char := st2, num_val := parseF64 buf },
                  Token.Number)
          else
            (Lexer.get_char { l with source := src1, last_char := CharState.Char c },
              Token.Char c)
      | CharState.NotInitailized =>
          ({ l with source := src1, last_char := CharState.NotInitailized }, Token.None)

/-- `Lexer::update_token` (line 132-135): run `get_token` and store the
produced token into `cur_tok`. -/
def Lexer.update_token (l : Lexer) : Lexer × Token :=
  match l.get_token with
  | (l', t) => ({ l' with cur_tok := t }, t)

/-- The first `n` tokens successively produced by `get_token`. -/
def Lexer.tokens (l : Lexer) : Nat → List Token
  | 0 => []
  | n + 1 =>
      match l.get_token with
      | (l', t) => t :: l'.tokens n

/-- The `ParseError` enum (line 290-296). -/
inductive ParseError where
  | LexerError (msg : String)
  | SyntaxError (msg : String)
  | UnexpectedToken (tok : Token) (expected : String)
  | GeneralError (msg : String)
deriving DecidableEq

/-- The closed AST node model: the eight `ExprAST` implementors of the
source (line 184-285), collapsed from the trait-object encoding into
one tagged union as the spec's data model describes them. `FunctionAST`
holds its prototype's components. -/
inductive ExprAST where
  | NumberExprAST (val : Rat)
  | VariableExprAST (name : List Char)
  | BinaryExprAST (op : Char) (lhs rhs : ExprAST)
  | CallExprAST (callee : List Char) (args : List ExprAST)
  | PrototypeAST (name : List Char) (args : List (List Char))
  | FunctionAST (protoName : List Char) (protoArgs : List (List Char)) (body : ExprAST)
  | ErrorAST (error : ParseError)
  | EmptyExprAST

/-- The `ASTParser<R>` struct (line 317-322). -/
structure ASTParser where
  lexer : Lexer
  ast : ExprAST
  curtok : Token

/-- `ASTParser::new` (line 324-334): captures `lexer.cur_tok`, panics
(`none` here) when `lexer.last_char` is not `NotInitailized`, otherwise
builds the parser with an `EmptyExprAST` and the captured token. -/
def ASTParser.new (lexer : Lexer) : Option ASTParser :=
  let temp_tok := lexer.cur_tok
  if lexer.last_char ≠ CharState.NotInitailized then none
  else some { lexer := lexer, ast := ExprAST.EmptyExprAST, curtok := temp_tok }

/-- `ASTParser::parse_number_expr` (line 337-352): if the lexer's
`num_val` payload is present, advance the lexer with `update_token` and
return a `NumberExprAST` holding the payload; otherwise return an
`ErrorAST` wrapping a `LexerError`, touching nothing. -/
def ASTParser.parse_number_expr (p : ASTParser) : ASTParser × ExprAST :=
  match p.lexer.num_val with
  | some num_val =>
      match p.lexer.update_token with
      | (l', _) => ({ p with lexer := l' }, ExprAST.NumberExprAST num_val)
  | none =>
      (p, ExprAST.ErrorAST (ParseError.LexerError
        "Get a number token but the num_val has no number"))

/-! ## Helper lemmas about the scanning loops -/

/-- The skip-whitespace loop's continue condition. -/
def skipCond (st : CharState) : Prop :=
  st = CharState.Char ' ' ∨ st = CharState.NotInitailized

instance (st : CharState) : Decidable (skipCond st) := by
  unfold skipCond; infer_instance

theorem skipSpacesAux_exit (st : CharState) (src : List ReadResult)
    (h : ¬ skipCond st) : skipSpacesAux st src = (src, st) := by
  cases src <;> simp [skipSpacesAux, skipCond] at h ⊢ <;> simp [h]

theorem skipSpacesAux_cons_of_cond (st : CharState) (r : ReadResult)
    (rest : List ReadResult) (h : skipCond st) :
    skipSpacesAux st (r :: rest) = skipSpacesAux (readStep r st) rest := by
  unfold skipCond at h
  rw [skipSpacesAux, if_pos h]

theorem skipSpacesAux_cond_irrel (src : List ReadResult) :
    ∀ st1 st2 : CharState, skipCond st1 → skipCond st2 →
      skipSpacesAux st1 src = skipSpacesAux st2 src := by
  induction src with
  | nil =>
      intro st1 st2 h1 h2
      unfold skipCond at h1 h2
      rw [skipSpacesAux, skipSpacesAux, if_pos h1, if_pos h2]
  | cons r rest ih =>
      intro st1 st2 h1 h2
      rw [skipSpacesAux_cons_of_cond st1 r rest h1,
        skipSpacesAux_cons_of_cond st2 r rest h2]
      cases r with
      | ok c => rfl
      | ioError => exact ih st1 st2 h1 h2

theorem skipSpacesAux_replicate_spaces (n : Nat) (st : CharState)
    (tl : List ReadResult) (h : skipCond st) :
    skipSpacesAux st (List.replicate n (ReadResult.ok ' ') ++ tl)
      = skipSpacesAux st tl := by
  induction n generalizing st with
  | zero => rfl
  | succ n ih =>
      rw [List.replicate_succ, List.cons_append,
        skipSpacesAux_cons_of_cond st _ _ h, readStep,
        ih (CharState.Char ' ') (Or.inl rfl)]
      exact skipSpacesAux_cond_irrel tl (CharState.Char ' ') st (Or.inl rfl) h

theorem skipSpacesAux_snd_ne_notInit (src : List ReadResult) :
    ∀ st : CharState,
      (skipSpacesAux st src).2 ≠ CharState.NotInitailized := by
  induction src with
  | nil =>
      intro st
      by_cases h : skipCond st
      · simp [skipSpacesAux, skipCond] at h ⊢
        rcases h with h | h <;> simp [h]
      · rw [skipSpacesAux_exit st [] h]
        simp only [skipCond, not_or] at h
        exact h.2
  | cons r rest ih =>
      intro st
      by_cases h : skipCond st
      · simp only [skipSpacesAux, skipCond] at h ⊢
        rw [if_pos h]
        exact ih (readStep r st)
      · rw [skipSpacesAux_exit st (r :: rest) h]
        simp only [skipCond, not_or] at h
        exact h.2

theorem get_token_eof (l : Lexer) (src1 : List ReadResult)
    (h : skipSpacesAux l.last_char l.source = (src1, CharState.Eof)) :
    l.get_token = ({ l with source := src1, last_char := CharState.Eof }, Token.Eof) := by
  unfold Lexer.get_token
  rw [h]

theorem get_token_alpha (l : Lexer) (c : Char) (src1 src2 : List ReadResult)
    (st2 : CharState) (buf : List Char)
    (h : skipSpacesAux l.last_char l.source = (src1, CharState.Char c))
    (hc : is_alphabetic c = true)
    (hid : identLoopAux (CharState.Char c) [c] src1 = (src2, st2, buf)) :
    l.get_token
      = ({ l with source := src2, last_char := st2, identifier_str := buf },
          classifyIdent buf) := by
  unfold Lexer.get_token
  rw [h]
  simp only [hc, if_true, hid]

theorem get_token_number (l : Lexer) (c : Char) (src1 src2 : List ReadResult)
    (st2 : CharState) (buf : List Char)
    (h : skipSpacesAux l.last_char l.source = (src1, CharState.Char c))
    (hc : is_alphabetic c = false)
    (hc2 : (is_numeric c || c == '.') = true)
    (hnum : numLoopAux (CharState.Char c) [] src1 = (src2, st2, buf)) :
    l.get_token
      = ({ l with source := src2, last_char := st2, num_val := parseF64 buf },
          Token.Number) := by
  unfold Lexer.get_token
  rw [h]
  simp only [hc, Bool.false_eq_true, if_false, hc2, if_true, hnum]

theorem get_token_char (l : Lexer) (c : Char) (src1 : List ReadResult)
    (h : skipSpacesAux l.last_char l.source = (src1, CharState.Char c))
    (hc : is_alphabetic c = false)
    (hc2 : (is_numeric c || c == '.') = false) :
    l.get_token
      = (Lexer.get_char { l with source := src1, last_char := CharState.Char c },
          Token.Char c) := by
  unfold Lexer.get_token
  rw [h]
  simp only [hc, Bool.false_eq_true, if_false, hc2]


theorem identLoopAux_nil (st : CharState) (acc : List Char) :
    identLoopAux st acc [] = ([], CharState.Eof, acc) := rfl

theorem identLoopAux_cons_ok (st : CharState) (acc : List Char) (c : Char)
    (rest : List ReadResult) :
    identLoopAux st acc (ReadResult.ok c :: rest)
      = if is_alphanumeric c then identLoopAux (CharState.Char c) (acc ++ [c]) rest
        else (rest, CharState.Char c, acc) := rfl

theorem identLoopAux_cons_ioErr_char (c0 : Char) (acc : List Char)
    (rest : List ReadResult) :
    identLoopAux (CharState.Char c0) acc (ReadResult.ioError :: rest)
      = if is_alphanumeric c0 then identLoopAux (CharState.Char c0) (acc ++ [c0]) rest
        else (rest, CharState.Char c0, acc) := rfl

theorem identLoopAux_cons_ioErr_eof (acc : List Char) (rest : List ReadResult) :
    identLoopAux CharState.Eof acc (ReadResult.ioError :: rest)
      = (rest, CharState.Eof, acc) := rfl

theorem numLoopAux_nil_char (num_c : Char) (acc : List Char) :
    numLoopAux (CharState.Char num_c) acc [] = ([], CharState.Eof, acc ++ [num_c]) := rfl

theorem numLoopAux_cons_ok_char (num_c : Char) (acc : List Char) (c : Char)
    (rest : List ReadResult) :
    numLoopAux (CharState.Char num_c) acc (ReadResult.ok c :: rest)
      = if is_numeric c || c == '.' then
          numLoopAux (CharState.Char c) (acc ++ [num_c]) rest
        else (rest, CharState.Char c, acc ++ [num_c]) := rfl

theorem numLoopAux_cons_ioErr_char (num_c : Char) (acc : List Char)
    (rest : List ReadResult) :
    numLoopAux (CharState.Char num_c) acc (ReadResult.ioError :: rest)
      = if is_numeric num_c || num_c == '.' then
          numLoopAux (CharState.Char num_c) (acc ++ [num_c]) rest
        else (rest, CharState.Char num_c, acc ++ [num_c]) := rfl

theorem identLoopAux_snd_ne_notInit (src : List ReadResult) :
    ∀ (st : CharState) (acc : List Char),
      st ≠ CharState.NotInitailized →
      (identLoopAux st acc src).2.1 ≠ CharState.NotInitailized := by
  induction src with
  | nil => intro st acc _; rw [identLoopAux_nil]; simp
  | cons r rest ih =>
      intro st acc hst
      cases r with
      | ok c =>
          rw [identLoopAux_cons_ok]
          by_cases hc : is_alphanumeric c
          · rw [if_pos hc]
            exact ih (CharState.Char c) (acc ++ [c]) (by simp)
          · rw [if_neg hc]; simp
      | ioError =>
          cases st with
          | NotInitailized => exact absurd rfl hst
          | Char c0 =>
              rw [identLoopAux_cons_ioErr_char]
              by_cases hc : is_alphanumeric c0
              · rw [if_pos hc]
                exact ih (CharState.Char c0) (acc ++ [c0]) (by simp)
              · rw [if_neg hc]; simp
          | Eof => rw [identLoopAux_cons_ioErr_eof]; simp

theorem numLoopAux_snd_ne_notInit (src : List ReadResult) :
    ∀ (st : CharState) (acc : List Char),
      st ≠ CharState.NotInitailized →
      (numLoopAux st acc src).2.1 ≠ CharState.NotInitailized := by
  induction src with
  | nil =>
      intro st acc hst
      cases st with
      | NotInitailized => exact absurd rfl hst
      | Char c => rw [numLoopAux_nil_char]; simp
      | Eof => simp [numLoopAux]
  | cons r rest ih =>
      intro st acc hst
      cases st with
      | NotInitailized => exact absurd rfl hst
      | Char num_c =>
          cases r with
          | ok c =>
              rw [numLoopAux_cons_ok_char]
              by_cases hc : (is_numeric c || c == '.') = true
              · rw [if_pos hc]
                exact ih (CharState.Char c) (acc ++ [num_c]) (by simp)
              · rw [if_neg hc]; simp
          | ioError =>
              rw [numLoopAux_cons_ioErr_char]
              by_cases hc : (is_numeric num_c || num_c == '.') = true
              · rw [if_pos hc]
                exact ih (CharState.Char num_c) (acc ++ [num_c]) (by simp)
              · rw [if_neg hc]; simp
      | Eof => simp [numLoopAux]

theorem get_char_last_char_ne_notInit (l : Lexer)
    (h : l.last_char ≠ CharState.NotInitailized) :
    (l.get_char).last_char ≠ CharState.NotInitailized := by
  unfold Lexer.get_char
  match hs : l.source with
  | [] => simp
  | ReadResult.ok c :: rest => simp
  | ReadResult.ioError :: rest => simpa using h

/-- After any full `get_token`, the cursor is never `NotInitailized`
(so the `unreachable!()` arm of the source is indeed unreachable). -/
theorem get_token_fst_last_char_ne_notInit (l : Lexer) :
    (l.get_token.1).last_char ≠ CharState.NotInitailized := by
  rcases hsk : skipSpacesAux l.last_char l.source with ⟨src1, st1⟩
  have hne : st1 ≠ CharState.NotInitailized := by
    have := skipSpacesAux_snd_ne_notInit l.source l.last_char
    rw [hsk] at this; exact this
  cases st1 with
  | NotInitailized => exact absurd rfl hne
  | Eof => rw [get_token_eof l src1 hsk]; simp
  | Char c =>
      by_cases hc : is_alphabetic c = true
      · rcases hid : identLoopAux (CharState.Char c) [c] src1 with ⟨src2, st2, buf⟩
        rw [get_token_alpha l c src1 src2 st2 buf hsk hc hid]
        have := identLoopAux_snd_ne_notInit src1 (CharState.Char c) [c] (by simp)
        rw [hid] at this; simpa using this
      · have hc' : is_alphabetic c = false := by simpa using hc
        by_cases hc2 : (is_numeric c || c == '.') = true
        · rcases hnum : numLoopAux (CharState.Char c) [] src1 with ⟨src2, st2, buf⟩
          rw [get_token_number l c src1 src2 st2 buf hsk hc' hc2 hnum]
          have := numLoopAux_snd_ne_notInit src1 (CharState.Char c) [] (by simp)
          rw [hnum] at this; simpa using this
        · have hc2' : (is_numeric c || c == '.') = false := by simpa using hc2
          rw [get_token_char l c src1 hsk hc' hc2']
          exact get_char_last_char_ne_notInit _ (by simp)

theorem tokens_of_fixed (l : Lexer) (h : l.get_token = (l, Token.Eof)) :
    ∀ k, l.tokens k = List.replicate k Token.Eof := by
  intro k
  induction k with
  | zero => rfl
  | succ k ih =>
      rw [Lexer.tokens, h]
      show Token.Eof :: l.tokens k = _
      rw [ih, List.replicate_succ]

/-! ## Claim theorems -/

/-- C4: for every input consisting only of ASCII space characters
(including the empty input), the first `next_token` call returns the
end-of-input token, and every subsequent call again returns
end-of-input while leaving the lexer completely unchanged (no further
reads of the source). -/
theorem c4_all_space_input_is_eof_and_idempotent (n : Nat) :
    ((Lexer.new (List.replicate n (ReadResult.ok ' '))).get_token).2 = Token.Eof ∧
    ((Lexer.new (List.replicate n (ReadResult.ok ' '))).get_token).1.get_token
      = (((Lexer.new (List.replicate n (ReadResult.ok ' '))).get_token).1, Token.Eof) ∧
    ∀ k, (((Lexer.new (List.replicate n (ReadResult.ok ' '))).get_token).1).tokens k
      = List.replicate k Token.Eof := by
  have h1 : skipSpacesAux (Lexer.new (List.replicate n (ReadResult.ok ' '))).last_char
      (Lexer.new (List.replicate n (ReadResult.ok ' '))).source = ([], CharState.Eof) := by
    show skipSpacesAux CharState.NotInitailized (List.replicate n (ReadResult.ok ' '))
      = ([], CharState.Eof)
    have h := skipSpacesAux_replicate_spaces n CharState.NotInitailized [] (Or.inr rfl)
    rw [List.append_nil] at h
    rw [h]
    decide
  have h2 := get_token_eof _ [] h1
  refine ⟨by rw [h2], ?_, ?_⟩
  · rw [h2]
    rfl
  · intro k
    rw [h2]
    exact tokens_of_fixed _ (by rfl) k

/-- C10: `get_token` only ever returns one of the tokens `Eof`, `Def`,
`Extern`, `Identifier`, `Number` or `Char c`; it never returns
`Token.None` (the constructor-time placeholder of `cur_tok`) nor
`Token.Comment` (an unproduced variant). -/
theorem c10_get_token_never_none_or_comment (l : Lexer) :
    (l.get_token.2 = Token.Eof ∨ l.get_token.2 = Token.Def ∨
      l.get_token.2 = Token.Extern ∨ l.get_token.2 = Token.Identifier ∨
      l.get_token.2 = Token.Number ∨ ∃ c, l.get_token.2 = Token.Char c) ∧
    l.get_token.2 ≠ Token.None ∧ l.get_token.2 ≠ Token.Comment := by
  have hd : l.get_token.2 = Token.Eof ∨ l.get_token.2 = Token.Def ∨
      l.get_token.2 = Token.Extern ∨ l.get_token.2 = Token.Identifier ∨
      l.get_token.2 = Token.Number ∨ ∃ c, l.get_token.2 = Token.Char c := by
    rcases hsk : skipSpacesAux l.last_char l.source with ⟨src1, st1⟩
    have hne : st1 ≠ CharState.NotInitailized := by
      have h := skipSpacesAux_snd_ne_notInit l.source l.last_char
      rw [hsk] at h; exact h
    cases st1 with
    | NotInitailized => exact absurd rfl hne
    | Eof => rw [get_token_eof l src1 hsk]; exact Or.inl rfl
    | Char c =>
        by_cases hc : is_alphabetic c = true
        · rcases hid : identLoopAux (CharState.Char c) [c] src1 with ⟨src2, st2, buf⟩
          rw [get_token_alpha l c src1 src2 st2 buf hsk hc hid]
          unfold classifyIdent
          split_ifs
          · exact Or.inr (Or.inl rfl)
          · exact Or.inr (Or.inr (Or.inl rfl))
          · exact Or.inr (Or.inr (Or.inr (Or.inl rfl)))
        · have hc' : is_alphabetic c = false := by simpa using hc
          by_cases hc2 : (is_numeric c || c == '.') = true
          · rcases hnum : numLoopAux (CharState.Char c) [] src1 with ⟨src2, st2, buf⟩
            rw [get_token_number l c src1 src2 st2 buf hsk hc' hc2 hnum]
            exact Or.inr (Or.inr (Or.inr (Or.inr (Or.inl rfl))))
          · have hc2' : (is_numeric c || c == '.') = false := by simpa using hc2
            rw [get_token_char l c src1 hsk hc' hc2']
            exact Or.inr (Or.inr (Or.inr (Or.inr (Or.inr ⟨c, rfl⟩))))
  refine ⟨hd, ?_, ?_⟩ <;>
    rcases hd with h | h | h | h | h | ⟨c, h⟩ <;> rw [h] <;> simp

/-- C3: `ASTParser::new` succeeds exactly when the lexer's character
cursor is still `NotInitailized`; priming a fresh lexer over a byte
stream with one `get_char`, or any lexer with one `update_token`,
always leaves the cursor advanced, so parser construction is then
rejected (the source's `panic!`, modelled as `none`). -/
theorem c3_parser_new_requires_fresh_lexer :
    (∀ l : Lexer, (∃ p, ASTParser.new l = some p) ↔
      l.last_char = CharState.NotInitailized) ∧
    (∀ src : List Char,
      ASTParser.new ((Lexer.new (src.map ReadResult.ok)).get_char) = none) ∧
    (∀ l : Lexer, ASTParser.new ((l.update_token).1) = none) := by
  refine ⟨?_, ?_, ?_⟩
  · intro l
    unfold ASTParser.new
    by_cases h : l.last_char = CharState.NotInitailized
    · rw [if_neg (by simpa using h)]
      simpa using h
    · rw [if_pos (by simpa using h)]
      simp [h]
  · intro src
    cases src <;> rfl
  · intro l
    rcases hgt : l.get_token with ⟨l', t⟩
    have hne : l'.last_char ≠ CharState.NotInitailized := by
      have h := get_token_fst_last_char_ne_notInit l
      rw [hgt] at h; exact h
    unfold Lexer.update_token
    rw [hgt]
    unfold ASTParser.new
    rw [if_pos (by simpa using hne)]

/-- C9: `get_char` maps a successful one-byte read to `Char c` and
stream exhaustion to `Eof`; but on a non-EOF I/O failure the code only
logs to stderr and returns, leaving `last_char` untouched and surfacing
no error to the caller — after a failed first read the lexer is
indistinguishable from a fresh lexer over the rest of the stream, so
the failure is silently swallowed rather than reported as fatal. -/
theorem c9_get_char_swallows_io_error :
    (Lexer.new [ReadResult.ok 'a']).get_char.last_char = CharState.Char 'a' ∧
    (Lexer.new []).get_char.last_char = CharState.Eof ∧
    (Lexer.new [ReadResult.ioError]).get_char = Lexer.new [] ∧
    (Lexer.new [ReadResult.ioError]).get_char.last_char
      = CharState.NotInitailized :=
  ⟨rfl, rfl, rfl, rfl⟩

/-- C2: when the lookahead is a `Number` token whose payload is absent
(`num_val = none`), `parse_number_expr` returns an `ErrorAST` wrapping
a `LexerError` and leaves the parser (lexer and lookahead included)
completely unchanged. -/
theorem c2_parse_number_payload_absent (p : ASTParser)
    (hnum : p.lexer.num_val = none)
    (htok : p.lexer.cur_tok = Token.Number) :
    p.parse_number_expr
      = (p, ExprAST.ErrorAST (ParseError.LexerError
          "Get a number token but the num_val has no number")) := by
  unfold ASTParser.parse_number_expr
  rw [hnum]

/-- Witness for C2 at the malformed literal `"1.2.3"`: after one
`update_token` the lookahead is a `Number` token with no payload, and
`parse_number_expr` returns the error node, touching nothing. -/
theorem c2_witness :
    (({ lexer := ((create_lexer "1.2.3").update_token).1,
        ast := ExprAST.EmptyExprAST, curtok := Token.None } : ASTParser)).lexer.num_val
        = none ∧
    (({ lexer := ((create_lexer "1.2.3").update_token).1,
        ast := ExprAST.EmptyExprAST, curtok := Token.None } : ASTParser)).lexer.cur_tok
        = Token.Number ∧
    (({ lexer := ((create_lexer "1.2.3").update_token).1,
        ast := ExprAST.EmptyExprAST, curtok := Token.None } : ASTParser)).parse_number_expr
      = (({ lexer := ((create_lexer "1.2.3").update_token).1,
            ast := ExprAST.EmptyExprAST, curtok := Token.None } : ASTParser),
          ExprAST.ErrorAST (ParseError.LexerError
            "Get a number token but the num_val has no number")) :=
  ⟨rfl, rfl, c2_parse_number_payload_absent _ rfl rfl⟩

/-- C1: when the lookahead is a `Number` token whose payload is present
(`num_val = some v`), `parse_number_expr` returns a `NumberExprAST`
holding exactly `v` and advances the lookahead: the parser's lexer is
exactly the lexer after one `update_token`, whose stored current token
is the next token `get_token` produces from the stream (which is
end-of-input if no token remains). -/
theorem c1_parse_number_returns_literal_and_advances (p : ASTParser) (v : Rat)
    (hnum : p.lexer.num_val = some v)
    (htok : p.lexer.cur_tok = Token.Number) :
    (p.parse_number_expr).2 = ExprAST.NumberExprAST v ∧
    (p.parse_number_expr).1.lexer = (p.lexer.update_token).1 ∧
    (p.parse_number_expr).1.lexer.cur_tok = (p.lexer.get_token).2 := by
  unfold ASTParser.parse_number_expr
  rw [hnum]
  rcases hut : p.lexer.update_token with ⟨l', t⟩
  have hcur : l'.cur_tok = (p.lexer.get_token).2 := by
    unfold Lexer.update_token at hut
    rcases hgt : p.lexer.get_token with ⟨l'', t''⟩
    rw [hgt] at hut
    cases hut
    rfl
  exact ⟨rfl, rfl, hcur⟩

/-- Witness for C1 at the input `"123"`, mirroring the source's
`test_parse_number_expr`: after one `update_token` the lookahead is
`Number` with payload `123`; `parse_number_expr` returns the literal
node and advances the stored token to `Eof` since nothing remains. -/
theorem c1_witness :
    (({ lexer := ((create_lexer "123").update_token).1,
        ast := ExprAST.EmptyExprAST, curtok := Token.None } : ASTParser)).lexer.num_val
        = some ((123 : Nat) : Rat) ∧
    (({ lexer := ((create_lexer "123").update_token).1,
        ast := ExprAST.EmptyExprAST, curtok := Token.None } : ASTParser)).lexer.cur_tok
        = Token.Number ∧
    ((({ lexer := ((create_lexer "123").update_token).1,
         ast := ExprAST.EmptyExprAST, curtok := Token.None } : ASTParser)).parse_number_expr).2
        = ExprAST.NumberExprAST ((123 : Nat) : Rat) ∧
    ((({ lexer := ((create_lexer "123").update_token).1,
         ast := ExprAST.EmptyExprAST, curtok := Token.None } : ASTParser)).parse_number_expr).1.lexer.cur_tok
        = Token.Eof :=
  ⟨rfl, rfl,
    (c1_parse_number_returns_literal_and_advances _ ((123 : Nat) : Rat) rfl rfl).1,
    rfl⟩

/-- C7: scanning the representative mixed inputs reproduces exactly the
manually enumerated token sequences, with no token dropped or
duplicated: `"def foo(x, y) x+y"` yields Def, Identifier, '(',
Identifier, ',', Identifier, ')', Identifier, '+', Identifier, Eof, and
`"a+b"` yields Identifier, '+', Identifier (with the identifier texts
`"a"` and `"b"` retained). -/
theorem c7_round_trip_token_sequences :
    (create_lexer "def foo(x, y) x+y").tokens 11
      = [Token.Def, Token.Identifier, Token.Char '(', Token.Identifier,
          Token.Char ',', Token.Identifier, Token.Char ')', Token.Identifier,
          Token.Char '+', Token.Identifier, Token.Eof] ∧
    (create_lexer "a+b").tokens 3
      = [Token.Identifier, Token.Char '+', Token.Identifier] ∧
    ((create_lexer "a+b").get_token).1.identifier_str = ['a'] ∧
    ((((create_lexer "a+b").get_token).1.get_token).1.get_token).1.identifier_str
      = ['b'] := by
  refine ⟨by decide, by decide, by decide, by decide⟩

theorem identLoopAux_ok_all (run : List Char) :
    ∀ (st : CharState) (acc : List Char),
      (∀ c ∈ run, is_alphanumeric c = true) →
      identLoopAux st acc (run.map ReadResult.ok)
        = ([], CharState.Eof, acc ++ run) := by
  induction run with
  | nil =>
      intro st acc _
      rw [List.map_nil, identLoopAux_nil, List.append_nil]
  | cons c cs ih =>
      intro st acc h
      rw [List.map_cons, identLoopAux_cons_ok, if_pos (h c (by simp)),
        ih (CharState.Char c) (acc ++ [c]) (fun x hx => h x (by simp [hx]))]
      simp

theorem identLoopAux_ok_stop (run : List Char) :
    ∀ (st : CharState) (acc : List Char) (r : Char) (rs : List Char),
      (∀ c ∈ run, is_alphanumeric c = true) →
      is_alphanumeric r = false →
      identLoopAux st acc ((run ++ r :: rs).map ReadResult.ok)
        = (rs.map ReadResult.ok, CharState.Char r, acc ++ run) := by
  induction run with
  | nil =>
      intro st acc r rs _ hr
      rw [List.nil_append, List.map_cons, identLoopAux_cons_ok,
        if_neg (by simp [hr]), List.append_nil]
  | cons c cs ih =>
      intro st acc r rs h hr
      rw [List.cons_append, List.map_cons, identLoopAux_cons_ok,
        if_pos (h c (by simp)),
        ih (CharState.Char c) (acc ++ [c]) r rs (fun x hx => h x (by simp [hx])) hr]
      simp

theorem numLoopAux_ok_all (run : List Char) :
    ∀ (d : Char) (acc : List Char),
      (∀ c ∈ run, (is_numeric c || c == '.') = true) →
      numLoopAux (CharState.Char d) acc (run.map ReadResult.ok)
        = ([], CharState.Eof, acc ++ d :: run) := by
  induction run with
  | nil =>
      intro d acc _
      rw [List.map_nil, numLoopAux_nil_char]
  | cons c cs ih =>
      intro d acc h
      rw [List.map_cons, numLoopAux_cons_ok_char, if_pos (h c (by simp)),
        ih c (acc ++ [d]) (fun x hx => h x (by simp [hx]))]
      simp

theorem numLoopAux_ok_stop (run : List Char) :
    ∀ (d : Char) (acc : List Char) (r : Char) (rs : List Char),
      (∀ c ∈ run, (is_numeric c || c == '.') = true) →
      (is_numeric r || r == '.') = false →
      numLoopAux (CharState.Char d) acc ((run ++ r :: rs).map ReadResult.ok)
        = (rs.map ReadResult.ok, CharState.Char r, acc ++ d :: run) := by
  induction run with
  | nil =>
      intro d acc r rs _ hr
      rw [List.nil_append, List.map_cons, numLoopAux_cons_ok_char,
        if_neg (by simp [hr])]
  | cons c cs ih =>
      intro d acc r rs h hr
      rw [List.cons_append, List.map_cons, numLoopAux_cons_ok_char,
        if_pos (h c (by simp)),
        ih c (acc ++ [d]) r rs (fun x hx => h x (by simp [hx])) hr]
      simp

theorem numdot_not_alphabetic (c : Char) (h : (is_numeric c || c == '.') = true) :
    is_alphabetic c = false := by
  cases hx : is_alphabetic c with
  | false => rfl
  | true =>
      exfalso
      rcases (Bool.or_eq_true _ _).mp h with hn | hdot
      · unfold is_numeric at hn
        unfold is_alphabetic at hx
        simp only [Bool.or_eq_true, Bool.and_eq_true, decide_eq_true_eq,
          beq_iff_eq] at hn hx
        omega
      · have hc : c = '.' := by simpa using hdot
        subst hc
        exact absurd hx (by decide)

/-- C5: on an input whose first non-space character `a` is alphabetic,
`get_token` accumulates the maximal alphanumeric run into the
identifier buffer and classifies it with the keyword table: the token
is `classifyIdent (a :: run)` (i.e. `Def` for `"def"`, `Extern` for
`"extern"`, `Identifier` otherwise) and the retained `identifier_str`
is exactly the run. -/
theorem c5_identifier_run_classified (sp : Nat) (a : Char) (run rest : List Char)
    (ha : is_alphabetic a = true)
    (hrun : ∀ c ∈ run, is_alphanumeric c = true)
    (hrest : ∀ r, rest.head? = some r → is_alphanumeric r = false) :
    ((Lexer.new ((List.replicate sp ' ' ++ a :: (run ++ rest)).map ReadResult.ok)).get_token).2
      = classifyIdent (a :: run) ∧
    ((Lexer.new ((List.replicate sp ' ' ++ a :: (run ++ rest)).map ReadResult.ok)).get_token).1.identifier_str
      = a :: run := by
  have ha' : ¬ skipCond (CharState.Char a) := by
    intro hc
    rcases hc with hc | hc
    · have : a = ' ' := by injection hc
      subst this
      exact absurd ha (by decide)
    · exact CharState.noConfusion hc
  have hsk : skipSpacesAux
      (Lexer.new ((List.replicate sp ' ' ++ a :: (run ++ rest)).map ReadResult.ok)).last_char
      (Lexer.new ((List.replicate sp ' ' ++ a :: (run ++ rest)).map ReadResult.ok)).source
      = ((run ++ rest).map ReadResult.ok, CharState.Char a) := by
    show skipSpacesAux CharState.NotInitailized
      ((List.replicate sp ' ' ++ a :: (run ++ rest)).map ReadResult.ok) = _
    rw [List.map_append, List.map_replicate, List.map_cons,
      skipSpacesAux_replicate_spaces sp _ _ (Or.inr rfl),
      skipSpacesAux_cons_of_cond _ _ _ (Or.inr rfl), readStep,
      skipSpacesAux_exit _ _ ha']
  cases hre : rest with
  | nil =>
      have hid := identLoopAux_ok_all run (CharState.Char a) [a] hrun
      rw [hre] at hsk
      rw [List.append_nil] at hsk ⊢
      rw [get_token_alpha _ a _ _ _ _ hsk ha hid]
      exact ⟨rfl, rfl⟩
  | cons r rs =>
      have hr : is_alphanumeric r = false := hrest r (by rw [hre]; rfl)
      have hid := identLoopAux_ok_stop run (CharState.Char a) [a] r rs hrun hr
      rw [hre] at hsk
      rw [get_token_alpha _ a _ _ _ _ hsk ha hid]
      exact ⟨rfl, rfl⟩

/-- Witness for C5 at the keyword input `"extern"`: hypotheses hold,
the produced token is `classifyIdent "extern".toList = Token.Extern`,
and the retained identifier text is exactly `"extern"`. -/
theorem c5_witness :
    is_alphabetic 'e' = true ∧
    (∀ c ∈ ['x', 't', 'e', 'r', 'n'], is_alphanumeric c = true) ∧
    (((Lexer.new ((List.replicate 0 ' ' ++ 'e' :: (['x', 't', 'e', 'r', 'n'] ++ [])).map ReadResult.ok)).get_token).2
        = classifyIdent ('e' :: ['x', 't', 'e', 'r', 'n']) ∧
      ((Lexer.new ((List.replicate 0 ' ' ++ 'e' :: (['x', 't', 'e', 'r', 'n'] ++ [])).map ReadResult.ok)).get_token).1.identifier_str
        = 'e' :: ['x', 't', 'e', 'r', 'n']) ∧
    classifyIdent ('e' :: ['x', 't', 'e', 'r', 'n']) = Token.Extern :=
  ⟨by decide, by decide,
    c5_identifier_run_classified 0 'e' ['x', 't', 'e', 'r', 'n'] []
      (by decide) (by decide) (fun r h => nomatch h),
    by decide⟩

/-- C6: on an input whose first non-space character `d` is a digit or
`.`, `get_token` accumulates the maximal run of digits and dots
(multiple dots included) and always produces a `Number` token; the
payload is whatever `f64` parsing of the buffer gives, i.e. absent
exactly when the buffer (such as `"1.2.3"`) fails numeric parsing —
the scan itself never fails. -/
theorem c6_number_scan_permissive (sp : Nat) (d : Char) (run rest : List Char)
    (hd : (is_numeric d || d == '.') = true)
    (hrun : ∀ c ∈ run, (is_numeric c || c == '.') = true)
    (hrest : ∀ r, rest.head? = some r → (is_numeric r || r == '.') = false) :
    ((Lexer.new ((List.replicate sp ' ' ++ d :: (run ++ rest)).map ReadResult.ok)).get_token).2
      = Token.Number ∧
    ((Lexer.new ((List.replicate sp ' ' ++ d :: (run ++ rest)).map ReadResult.ok)).get_token).1.num_val
      = parseF64 (d :: run) := by
  have hda : is_alphabetic d = false := numdot_not_alphabetic d hd
  have hd' : ¬ skipCond (CharState.Char d) := by
    intro hc
    rcases hc with hc | hc
    · have : d = ' ' := by injection hc
      subst this
      exact absurd hd (by decide)
    · exact CharState.noConfusion hc
  have hsk : skipSpacesAux
      (Lexer.new ((List.replicate sp ' ' ++ d :: (run ++ rest)).map ReadResult.ok)).last_char
      (Lexer.new ((List.replicate sp ' ' ++ d :: (run ++ rest)).map ReadResult.ok)).source
      = ((run ++ rest).map ReadResult.ok, CharState.Char d) := by
    show skipSpacesAux CharState.NotInitailized
      ((List.replicate sp ' ' ++ d :: (run ++ rest)).map ReadResult.ok) = _
    rw [List.map_append, List.map_replicate, List.map_cons,
      skipSpacesAux_replicate_spaces sp _ _ (Or.inr rfl),
      skipSpacesAux_cons_of_cond _ _ _ (Or.inr rfl), readStep,
      skipSpacesAux_exit _ _ hd']
  cases hre : rest with
  | nil =>
      have hnum := numLoopAux_ok_all run d [] hrun
      rw [hre] at hsk
      rw [List.append_nil] at hsk ⊢
      rw [get_token_number _ d _ _ _ _ hsk hda hd hnum]
      exact ⟨rfl, rfl⟩
  | cons r rs =>
      have hr : (is_numeric r || r == '.') = false := hrest r (by rw [hre]; rfl)
      have hnum := numLoopAux_ok_stop run d [] r rs hrun hr
      rw [hre] at hsk
      rw [get_token_number _ d _ _ _ _ hsk hda hd hnum]
      exact ⟨rfl, rfl⟩

/-- Witness for C6 at the malformed literal `"1.2.3"`: the scan
accepts the multi-dot run, still produces a `Number` token, and the
payload is `parseF64 "1.2.3".toList = none`. -/
theorem c6_witness :
    (is_numeric '1' || '1' == '.') = true ∧
    (∀ c ∈ ['.', '2', '.', '3'], (is_numeric c || c == '.') = true) ∧
    (((Lexer.new ((List.replicate 0 ' ' ++ '1' :: (['.', '2', '.', '3'] ++ [])).map ReadResult.ok)).get_token).2
        = Token.Number ∧
      ((Lexer.new ((List.replicate 0 ' ' ++ '1' :: (['.', '2', '.', '3'] ++ [])).map ReadResult.ok)).get_token).1.num_val
        = parseF64 ('1' :: ['.', '2', '.', '3'])) ∧
    parseF64 ('1' :: ['.', '2', '.', '3']) = none :=
  ⟨by decide, by decide,
    c6_number_scan_permissive 0 '1' ['.', '2', '.', '3'] []
      (by decide) (by decide) (fun r h => nomatch h),
    rfl⟩

theorem get_token_congr (l₁ l₂ : Lexer)
    (hsk : skipSpacesAux l₁.last_char l₁.source
      = skipSpacesAux l₂.last_char l₂.source)
    (h2 : l₁.identifier_str = l₂.identifier_str)
    (h3 : l₁.num_val = l₂.num_val)
    (h4 : l₁.cur_tok = l₂.cur_tok) :
    l₁.get_token = l₂.get_token := by
  rcases hs : skipSpacesAux l₂.last_char l₂.source with ⟨src1, st1⟩
  rw [hs] at hsk
  have hne : st1 ≠ CharState.NotInitailized := by
    have h := skipSpacesAux_snd_ne_notInit l₂.source l₂.last_char
    rw [hs] at h; exact h
  cases st1 with
  | NotInitailized => exact absurd rfl hne
  | Eof =>
      rw [get_token_eof l₁ src1 hsk, get_token_eof l₂ src1 hs, h2, h3, h4]
  | Char c =>
      by_cases hc : is_alphabetic c = true
      · rcases hid : identLoopAux (CharState.Char c) [c] src1 with ⟨src2, st2, buf⟩
        rw [get_token_alpha l₁ c src1 src2 st2 buf hsk hc hid,
          get_token_alpha l₂ c src1 src2 st2 buf hs hc hid, h3, h4]
      · have hc' : is_alphabetic c = false := by simpa using hc
        by_cases hc2 : (is_numeric c || c == '.') = true
        · rcases hnum : numLoopAux (CharState.Char c) [] src1 with ⟨src2, st2, buf⟩
          rw [get_token_number l₁ c src1 src2 st2 buf hsk hc' hc2 hnum,
            get_token_number l₂ c src1 src2 st2 buf hs hc' hc2 hnum, h2, h4]
        · have hc2' : (is_numeric c || c == '.') = false := by simpa using hc2
          rw [get_token_char l₁ c src1 hsk hc' hc2',
            get_token_char l₂ c src1 hs hc' hc2']
          cases src1 with
          | nil => simp [Lexer.get_char, h2, h3, h4]
          | cons r rest =>
              cases r <;> simp [Lexer.get_char, h2, h3, h4]

/-- C8: prepending any number of ASCII spaces to the byte source does
not change the outcome of the first `next_token` call at all — the
produced token, the retained payloads (`num_val`, `identifier_str`) and
the final lexer state are identical; in particular `"   .234"` yields
the very same `Number` payload as `".234"`. -/
theorem c8_leading_spaces_irrelevant (n : Nat) (src : List ReadResult) :
    (Lexer.new (List.replicate n (ReadResult.ok ' ') ++ src)).get_token
      = (Lexer.new src).get_token ∧
    ((create_lexer "   .234").get_token).1.num_val
      = ((create_lexer ".234").get_token).1.num_val := by
  constructor
  · exact get_token_congr _ _
      (skipSpacesAux_replicate_spaces n CharState.NotInitailized src (Or.inr rfl))
      rfl rfl rfl
  · rfl
